import Mathlib

/-!
Verification of the duplicate-resolution decision engine of plex-dedup
(src/dedup_engine.py, with its data model from src/plex_client.py, the
catalog clients src/radarr_client.py and src/sonarr_client.py, and the
configuration defaults from src/config.py), as a shallow embedding.

Modelling conventions:
* Python `float` arithmetic in the quality scorer is modelled over `ℚ`;
  every constant involved (100, 0.5, 30, bonuses) is exactly representable,
  and `round(x, 2)` is modelled as rational rounding to a multiple of 1/100.
* Python `str` is `String`; the string helpers below are written over the
  underlying character list so that they evaluate inside the kernel.
* Fallible external calls are modelled by oracle functions that decide the
  outcome of each call, and the executor returns the list of external
  mutations it performed (its effect trace) instead of performing them.
* A Python function that can raise is modelled with an explicit error case.
-/

/-- Characterwise lowercasing, the model of Python `str.lower()` (the code
only lowercases ASCII resolution labels, titles and paths). -/
def lowerStr (s : String) : String := ⟨s.data.map Char.toLower⟩

/-- Characterwise uppercasing, the model of Python `str.upper()`. -/
def upperStr (s : String) : String := ⟨s.data.map Char.toUpper⟩

/-- Model of Python `str.replace("p", "")`: the pattern is a single
character, so replacing it by the empty string removes every occurrence
of that character. -/
def removeChar (c : Char) (s : String) : String :=
  ⟨s.data.filter (fun d => d ≠ c)⟩

/-- Model of Python `str.isdigit()` for the ASCII labels the code handles:
nonempty and all characters are digits. -/
def isDigitStr (s : String) : Bool :=
  !s.data.isEmpty && s.data.all Char.isDigit

/-- `listStarts pat l` holds when `pat` is an initial segment of `l`. -/
def listStarts : List Char → List Char → Bool
  | [], _ => true
  | _ :: _, [] => false
  | c :: cs, d :: ds => c = d && listStarts cs ds

/-- `infixList pat l` holds when `pat` occurs contiguously inside `l`. -/
def infixList (pat : List Char) : List Char → Bool
  | [] => pat.isEmpty
  | d :: ds => listStarts pat (d :: ds) || infixList pat ds

/-- Model of the Python substring test (`pat in s`, `re.search` on the
literal alternatives used by `_parse_source_from_path`). -/
def strContains (s pat : String) : Bool := infixList pat.data s.data

/-- `MediaFile` from src/plex_client.py: one physical file variant.
Python `int` fields are `Int` and the added timestamp is the string the
code compares lexicographically. -/
structure MediaFile where
  title : String
  year : Option Int
  plex_rating_key : String
  file_path : String
  file_size : Int
  resolution : String
  video_codec : String
  audio_codec : String
  bitrate : Int
  duration : Int
  added_at : String
  container : String
  media_id : Int
  show_title : String := ""
  season_number : Option Int := none
  episode_number : Option Int := none
  media_type : String := "movie"
deriving DecidableEq, Repr

/-- `DuplicateGroup` from src/plex_client.py. -/
structure DuplicateGroup where
  title : String
  year : Option Int
  plex_rating_key : String
  files : List MediaFile
  tmdb_id : Option String := none
  imdb_id : Option String := none
  tvdb_id : Option String := none
  media_type : String := "movie"
  show_title : String := ""
  season_number : Option Int := none
  episode_number : Option Int := none
deriving DecidableEq, Repr

/-- A Radarr movie / Sonarr series or episode record, the opaque mapping
the engine reads `id` and `monitored` from (spec §3 ExternalCatalogEntry).
Radarr/Sonarr records always carry an `id`; `monitored` and `title` are
read with defaults, so they are optional here. -/
structure ArrEntry where
  id : Int
  title : Option String := none
  monitored : Option Bool := none
deriving DecidableEq, Repr

/-- The configuration fields consumed by the engine (src/config.py). -/
structure Config where
  dry_run : Bool := true
  keep_strategy : String := "best_quality"
  auto_unmonitor : Bool := true
  delete_files : Bool := true
  recycle_bin : String := ""
  plex_movie_library : String := "Movies"
  plex_tv_library : String := "TV Shows"
  quality_ranks : List (String × Int) := []
deriving Repr

/-- The default `quality_ranks` table from src/config.py (never overridden
by `from_env`). -/
def default_quality_ranks : List (String × Int) :=
  [("remux-2160p", 100), ("bluray-2160p", 95), ("webdl-2160p", 90),
   ("webrip-2160p", 85), ("remux-1080p", 80), ("bluray-1080p", 75),
   ("webdl-1080p", 70), ("webrip-1080p", 65), ("bluray-720p", 50),
   ("webdl-720p", 45), ("webrip-720p", 40), ("hdtv-1080p", 35),
   ("hdtv-720p", 30), ("dvd", 20), ("sdtv", 10), ("unknown", 0)]

/-- `DeduplicationPlan` from src/dedup_engine.py. -/
structure DeduplicationPlan where
  group : DuplicateGroup
  keep : MediaFile
  remove : List MediaFile
  reason : String
  arr_entry : Option ArrEntry := none
  arr_episode : Option ArrEntry := none
  executed : Bool := false
  error : Option String := none
deriving DecidableEq, Repr

/-- Python dict `get(key, 0)` over the quality-ranks table. -/
def lookupRank (ranks : List (String × Int)) (key : String) : Int :=
  match ranks.find? (fun p => p.1 == key) with
  | some p => p.2
  | none => 0

/-- `DedupEngine._parse_resolution_rank`: dict lookup with default 0 after
lowercasing and removing every "p" (Python `replace("p", "")`). -/
def parse_resolution_rank (resolution : String) : Int :=
  let res := removeChar 'p' (lowerStr resolution)
  if res = "4k" then 2160
  else if res = "2160" then 2160
  else if res = "1080" then 1080
  else if res = "720" then 720
  else if res = "576" then 576
  else if res = "480" then 480
  else if res = "sd" then 480
  else 0

/-- `DedupEngine._parse_source_from_path`: the regex patterns are
alternations of literal substrings (with `[\-\.]?` expanded to its three
instances), tried in the dict's insertion order; `re.search` on such a
pattern is a substring test. -/
def parse_source_from_path (file_path : String) : String :=
  let p := lowerStr file_path
  if strContains p "remux" then "remux"
  else if strContains p "bluray" || strContains p "blu-ray" ||
          strContains p "blu.ray" || strContains p "bdremux" then "bluray"
  else if strContains p "web-dl" || strContains p "web.dl" ||
          strContains p "webdl" then "webdl"
  else if strContains p "webrip" || strContains p "web-rip" ||
          strContains p "web.rip" then "webrip"
  else if strContains p "hdtv" then "hdtv"
  else if strContains p "dvd" || strContains p "dvdrip" then "dvd"
  else if strContains p "sdtv" || strContains p "tvrip" then "sdtv"
  else "unknown"

/-- Rounding to two decimal places, the model of Python `round(x, 2)`
(rational rounding; the tie-breaking direction of float `round` is
immaterial to every claim). -/
def round2 (q : ℚ) : ℚ := (round (q * 100) : ℚ) / 100

/-- The video-codec bonus block of `DedupEngine._score_file`. -/
def codec_bonus (video_codec : String) : ℚ :=
  let c := upperStr video_codec
  if c = "HEVC" ∨ c = "H265" ∨ c = "X265" then 10
  else if c = "AV1" then 12
  else if c = "H264" ∨ c = "X264" ∨ c = "AVC" then 5
  else 0

/-- The audio-codec bonus block of `DedupEngine._score_file` (Python `in`
is the substring test; first matching tier wins). -/
def audio_bonus (audio_codec : String) : ℚ :=
  let a := upperStr audio_codec
  if strContains a "TRUEHD" || strContains a "ATMOS" then 10
  else if strContains a "DTS-HD" || strContains a "DTS:X" then 8
  else if strContains a "FLAC" || strContains a "PCM" then 7
  else if strContains a "DTS" then 5
  else if strContains a "EAC3" || strContains a "DD+" then 4
  else if strContains a "AC3" || strContains a "DD" then 3
  else if strContains a "AAC" then 2
  else 0

/-- The `"<source>-<resolution>p"` key `_score_file` looks up in the rank
table (the source tag alone when the stripped resolution label is not all
digits). -/
def quality_key (f : MediaFile) : String :=
  let source := parse_source_from_path f.file_path
  let res_label := removeChar 'p' (lowerStr f.resolution)
  if isDigitStr res_label then source ++ "-" ++ res_label ++ "p" else source

/-- `DedupEngine._score_file`: resolution, source-rank, bitrate and codec
contributions summed and rounded to two decimals. -/
def score_file (ranks : List (String × Int)) (f : MediaFile) : ℚ :=
  let res_rank := parse_resolution_rank f.resolution
  let s1 : ℚ := ((res_rank : ℚ) / 2160) * 100
  let s2 : ℚ := ((lookupRank ranks (quality_key f) : ℚ)) * (1 / 2)
  let s3 : ℚ := if 0 < f.bitrate then min ((f.bitrate : ℚ) / 40000) 1 * 30 else 0
  round2 (s1 + s2 + s3 + codec_bonus f.video_codec + audio_bonus f.audio_codec)

/-- A baseline concrete file used by witnesses and counterexamples. -/
def sampleFile : MediaFile where
  title := "m"
  year := none
  plex_rating_key := "1"
  file_path := "/m/dvd/x.mkv"
  file_size := 0
  resolution := "576"
  video_codec := ""
  audio_codec := ""
  bitrate := 0
  duration := 0
  added_at := ""
  container := ""
  media_id := 1

/-- A second concrete file (better quality, larger, newer). -/
def sampleFile2 : MediaFile :=
  { sampleFile with
      resolution := "1080p"
      file_path := "/m/x.bluray.mkv"
      file_size := 5
      added_at := "2021-01-01"
      media_id := 2 }

/-- A concrete duplicate group over the two sample files. -/
def sampleGroup : DuplicateGroup where
  title := "m"
  year := some 2020
  plex_rating_key := "1"
  files := [sampleFile, sampleFile2]

/-- An index lookup that never hits, for witnesses. -/
def emptyIndex : String → Option ArrEntry := fun _ => none

/-- An episode lookup that never hits, for witnesses. -/
def emptyFindEp : Int → Int → Int → Option ArrEntry := fun _ _ _ => none

/-- `MediaFile.file_size_gb`: size in binary gigabytes rounded to two
decimals. -/
def file_size_gb (f : MediaFile) : ℚ := round2 ((f.file_size : ℚ) / 1024 ^ 3)

/-- Python `max(xs, key=k)` over `init :: rest`: the accumulator is
replaced only on a strictly greater key, so the first maximum wins. -/
def maxByFirst {α β : Type} [LinearOrder β] (k : α → β) (init : α)
    (rest : List α) : α :=
  rest.foldl (fun acc y => if k acc < k y then y else acc) init

/-- The comparison `sort(key=lambda x: x[1], reverse=True)` performs on the
scored pairs: Python's stable sort, folded from the right by
`List.insertionSort`, inserts each earlier element before the first
later element whose score is not greater. -/
def scoredGE (a b : MediaFile × ℚ) : Prop := b.2 ≤ a.2

instance : DecidableRel scoredGE := fun a b =>
  inferInstanceAs (Decidable (b.2 ≤ a.2))

/-- `DedupEngine._pick_best_quality`: score every file, stable-sort the
pairs by descending score, take the head. `none` models the `IndexError`
on an empty list. -/
def pick_best_quality (ranks : List (String × Int)) (files : List MediaFile) :
    Option (MediaFile × String) :=
  let scored := files.map (fun f => (f, score_file ranks f))
  match (List.insertionSort scoredGE scored).head? with
  | some best => some (best.1, "Highest quality score: " ++ toString best.2)
  | none => none

/-- `DedupEngine._pick_largest`: Python `max` by `file_size`; `none` models
the `ValueError` on an empty list. -/
def pick_largest (files : List MediaFile) : Option (MediaFile × String) :=
  match files with
  | [] => none
  | x :: xs =>
    let largest := maxByFirst (fun f => f.file_size) x xs
    some (largest, "Largest file: " ++ toString (file_size_gb largest) ++ " GB")

/-- `DedupEngine._pick_newest`: Python `max` by the `added_at` string
(lexicographic comparison, as in the source). -/
def pick_newest (files : List MediaFile) : Option (MediaFile × String) :=
  match files with
  | [] => none
  | x :: xs =>
    let newest := maxByFirst (fun f => f.added_at) x xs
    some (newest, "Most recently added: " ++ newest.added_at)

/-- `DedupEngine.pick_keeper`: dispatch on the configured strategy string,
falling through to `_pick_best_quality` for any unknown value. -/
def pick_keeper (strategy : String) (ranks : List (String × Int))
    (files : List MediaFile) : Option (MediaFile × String) :=
  if strategy = "best_quality" then pick_best_quality ranks files
  else if strategy = "largest_file" then pick_largest files
  else if strategy = "newest" then pick_newest files
  else pick_best_quality ranks files

/-- Python truthiness of an optional string (`if group.tmdb_id:`):
present and nonempty. -/
def truthyOptStr : Option String → Bool
  | none => false
  | some s => s ≠ ""

/-- Python truthiness of a string. -/
def truthyStr (s : String) : Bool := s ≠ ""

/-- `group.year or ""` rendered into the Radarr title key: `None` and the
falsy year `0` both give the empty string. -/
def yearStr : Option Int → String
  | none => ""
  | some y => if y = 0 then "" else toString y

/-- The `title:<lowercased-title>:<year-or-empty>` key of
`_build_radarr_index` / `_find_in_radarr`. -/
def radarr_title_key (g : DuplicateGroup) : String :=
  "title:" ++ lowerStr g.title ++ ":" ++ yearStr g.year

/-- `DedupEngine._find_in_radarr`: the index is the dict built by
`_build_radarr_index`, modelled as its lookup function; an entry present
in the index is a nonempty record, so Python's `if entry:` is `isSome`. -/
def find_in_radarr (g : DuplicateGroup) (index : String → Option ArrEntry) :
    Option ArrEntry :=
  match (if truthyOptStr g.tmdb_id then
           index ("tmdb:" ++ g.tmdb_id.getD "") else none) with
  | some e => some e
  | none =>
    match (if truthyOptStr g.imdb_id then
             index ("imdb:" ++ g.imdb_id.getD "") else none) with
    | some e => some e
    | none => index (radarr_title_key g)

/-- The series-resolution part of `DedupEngine._find_in_sonarr`: `tvdb`
first, then `imdb`, then the lowercased show title. -/
def find_in_sonarr_series (g : DuplicateGroup)
    (index : String → Option ArrEntry) : Option ArrEntry :=
  let series := if truthyOptStr g.tvdb_id then
    index ("tvdb:" ++ g.tvdb_id.getD "") else none
  let series := if series.isNone && truthyOptStr g.imdb_id then
    index ("imdb:" ++ g.imdb_id.getD "") else series
  let series := if series.isNone && truthyStr g.show_title then
    index ("title:" ++ lowerStr g.show_title) else series
  series

/-- `DedupEngine._find_in_sonarr`: series resolution followed by the
episode lookup (`sonarr.find_episode`, an external call modelled by the
`findEp` oracle) when both season and episode numbers are present. -/
def find_in_sonarr (g : DuplicateGroup) (index : String → Option ArrEntry)
    (findEp : Int → Int → Int → Option ArrEntry) :
    Option ArrEntry × Option ArrEntry :=
  let series := find_in_sonarr_series g index
  let episode := match series, g.season_number, g.episode_number with
    | some s, some sn, some en => findEp s.id sn en
    | _, _, _ => none
  (series, episode)

/-- The body of the `scan_movies` loop. The Python removal filter
`[f for f in group.files if f is not keeper]` compares object identity;
the group's files are freshly constructed distinct objects and every
strategy returns the first file attaining its maximum (so no earlier
list entry can be equal to the keeper), hence at the value level the
filter erases exactly the first occurrence of the keeper. -/
def scan_group_movie (strategy : String) (ranks : List (String × Int))
    (index : String → Option ArrEntry) (g : DuplicateGroup) :
    Option DeduplicationPlan :=
  match pick_keeper strategy ranks g.files with
  | none => none
  | some (keeper, reason) =>
    some { group := g, keep := keeper, remove := g.files.erase keeper,
           reason := reason, arr_entry := find_in_radarr g index }

/-- The body of the `scan_episodes` loop (same plan construction, with the
Sonarr series and episode lookups). -/
def scan_group_episode (strategy : String) (ranks : List (String × Int))
    (index : String → Option ArrEntry)
    (findEp : Int → Int → Int → Option ArrEntry) (g : DuplicateGroup) :
    Option DeduplicationPlan :=
  match pick_keeper strategy ranks g.files with
  | none => none
  | some (keeper, reason) =>
    let se := find_in_sonarr g index findEp
    some { group := g, keep := keeper, remove := g.files.erase keeper,
           reason := reason, arr_entry := se.1, arr_episode := se.2 }

/-- `DedupEngine.scan_movies` over an already-fetched duplicate list. -/
def scan_movies (strategy : String) (ranks : List (String × Int))
    (index : String → Option ArrEntry) (groups : List DuplicateGroup) :
    List DeduplicationPlan :=
  groups.filterMap (scan_group_movie strategy ranks index)

/-- `DedupEngine.scan_episodes` over an already-fetched duplicate list. -/
def scan_episodes (strategy : String) (ranks : List (String × Int))
    (index : String → Option ArrEntry)
    (findEp : Int → Int → Int → Option ArrEntry)
    (groups : List DuplicateGroup) : List DeduplicationPlan :=
  groups.filterMap (scan_group_episode strategy ranks index findEp)

/-- An external mutation the executor can perform; the executor's effect
trace is a list of these. -/
inductive ExtAction where
  | putMovieMonitoredFalse (id : Int)
  | putEpisodeMonitoredFalse (id : Int)
  | plexDelete (rating_key : String) (media_id : Int)
  | moveToRecycle (src dst : String)
  | fsRemove (path : String)
  | rmdir (path : String)
  | refreshLibrary (name : String)
deriving DecidableEq, Repr

/-- `RadarrClient.unmonitor_movie`, with the outcome of the `PUT` call an
input (`putOk`; its failure is caught inside the function). Returns the
Python return value, the entry as the function leaves it (the dict is
mutated in place before the `PUT`), and the external call attempted. -/
def unmonitor_movie (putOk : Bool) (m : ArrEntry) :
    Bool × ArrEntry × List ExtAction :=
  if !(m.monitored.getD true) then (true, m, [])
  else
    let m2 := { m with monitored := some false }
    (putOk, m2, [ExtAction.putMovieMonitoredFalse m.id])

/-- `SonarrClient.unmonitor_episode`: same structure as
`unmonitor_movie`. -/
def unmonitor_episode (putOk : Bool) (e : ArrEntry) :
    Bool × ArrEntry × List ExtAction :=
  if !(e.monitored.getD true) then (true, e, [])
  else
    let e2 := { e with monitored := some false }
    (putOk, e2, [ExtAction.putEpisodeMonitoredFalse e.id])

/-- Outcomes of the external calls `execute_plan` performs, as pure
oracles (the deterministic behaviour of the outside world during one
run): the result of `plex.delete_media` (which catches its own errors and
returns a bool), whether `shutil.move` / `os.remove` raise, and the
filesystem predicates the code queries. -/
structure Oracles where
  putMovieOk : ArrEntry → Bool
  putEpisodeOk : ArrEntry → Bool
  plexDeleteOk : MediaFile → Bool
  moveRaises : MediaFile → Bool
  removeRaises : MediaFile → Bool
  fileExists : String → Bool
  parentEmptyDir : String → Bool

/-- `os.path.basename` for the slash-separated paths the code handles. -/
def basename (p : String) : String :=
  ((p.splitOn "/").getLast?).getD p

/-- `os.path.dirname` for slash-separated paths. -/
def dirname (p : String) : String :=
  String.intercalate "/" ((p.splitOn "/").dropLast)

/-- `os.path.join` for the nonempty recycle-bin directory and a relative
basename. -/
def joinPath (a b : String) : String :=
  if a.endsWith "/" then a ++ b else a ++ "/" ++ b

/-- The body of `execute_plan`'s per-file deletion loop: the Plex delete
attempt, then the recycle-bin / direct-delete fallbacks. Returns the
actions performed and, when a filesystem call raises, the exception
message (the `plexDelete` call already made is kept in the trace). -/
def delete_file_step (cfg : Config) (orc : Oracles) (f : MediaFile) :
    List ExtAction × Option String :=
  if cfg.delete_files then
    let a0 := [ExtAction.plexDelete f.plex_rating_key f.media_id]
    if orc.plexDeleteOk f then (a0, none)
    else if truthyStr cfg.recycle_bin then
      if orc.moveRaises f then (a0, some ("move failed: " ++ f.file_path))
      else (a0 ++ [ExtAction.moveToRecycle f.file_path
        (joinPath cfg.recycle_bin (basename f.file_path))], none)
    else if orc.fileExists f.file_path then
      if orc.removeRaises f then (a0, some ("remove failed: " ++ f.file_path))
      else
        let a1 := a0 ++ [ExtAction.fsRemove f.file_path]
        if orc.parentEmptyDir (dirname f.file_path) then
          (a1 ++ [ExtAction.rmdir (dirname f.file_path)], none)
        else (a1, none)
    else (a0, none)
  else ([], none)

/-- Step 2 of `execute_plan`: the loop over `plan.remove`, stopping at the
first file whose deletion raises and keeping the effects performed up to
that point. -/
def delete_loop (cfg : Config) (orc : Oracles) :
    List MediaFile → List ExtAction × Option String
  | [] => ([], none)
  | f :: fs =>
    match delete_file_step cfg orc f with
    | (a, some e) => (a, some e)
    | (a, none) =>
      let r := delete_loop cfg orc fs
      (a ++ r.1, r.2)

/-- Step 1 of `execute_plan`: the Radarr/Sonarr unmonitor calls. Both
client functions catch every failure of the `PUT` internally and the
catalog records carry an `id`, so this step never raises; it only
contributes external calls to the trace. (The in-place `monitored`
mutation of the entry is the subject of `unmonitor_movie` /
`unmonitor_episode` and is not read again by the engine.) -/
def unmonitor_step (cfg : Config) (orc : Oracles) (p : DeduplicationPlan) :
    List ExtAction :=
  if cfg.auto_unmonitor then
    if p.group.media_type = "movie" then
      match p.arr_entry with
      | some e => (unmonitor_movie (orc.putMovieOk e) e).2.2
      | none => []
    else if p.group.media_type = "episode" then
      match p.arr_episode with
      | some e => (unmonitor_episode (orc.putEpisodeOk e) e).2.2
      | none => []
    else []
  else []

/-- `DedupEngine.execute_plan`: dry-run short-circuit, then the try-block
around the unmonitor and delete steps. Returns the updated plan, the
effect trace, and the Python return value. -/
def execute_plan (cfg : Config) (orc : Oracles) (p : DeduplicationPlan) :
    DeduplicationPlan × List ExtAction × Bool :=
  if cfg.dry_run then ({ p with executed := true }, ([], true))
  else
    let ua := unmonitor_step cfg orc p
    match delete_loop cfg orc p.remove with
    | (da, none) => ({ p with executed := true }, (ua ++ da, true))
    | (da, some e) => ({ p with error := some e }, (ua ++ da, false))

/-- The result of `DedupEngine.execute_all`: the (now-mutated) plans, the
batch effect trace, and the success/failure counters. -/
structure BatchResult where
  plans : List DeduplicationPlan
  actions : List ExtAction
  success : Nat
  failed : Nat
deriving Repr

/-- The loop of `execute_all`, recursing over the plans in order. -/
def execute_batch (cfg : Config) (orc : Oracles) :
    List DeduplicationPlan → List DeduplicationPlan × List ExtAction × Nat × Nat
  | [] => ([], [], 0, 0)
  | p :: ps =>
    let r := execute_plan cfg orc p
    let rest := execute_batch cfg orc ps
    (r.1 :: rest.1, r.2.1 ++ rest.2.1,
     (if r.2.2 then 1 else 0) + rest.2.2.1,
     (if r.2.2 then 0 else 1) + rest.2.2.2)

/-- `DedupEngine.execute_all`: run every plan, then (outside dry run, when
at least one plan succeeded) trigger the two library refreshes, whose own
failures are swallowed. -/
def execute_all (cfg : Config) (orc : Oracles)
    (plans : List DeduplicationPlan) : BatchResult :=
  let r := execute_batch cfg orc plans
  let acts := if !cfg.dry_run && 0 < r.2.2.1 then
    r.2.1 ++ [ExtAction.refreshLibrary cfg.plex_movie_library,
              ExtAction.refreshLibrary cfg.plex_tv_library]
    else r.2.1
  ⟨r.1, acts, r.2.2.1, r.2.2.2⟩

/-- Benign oracles: every external call succeeds, no filesystem
surprises. -/
def okOracles : Oracles where
  putMovieOk := fun _ => true
  putEpisodeOk := fun _ => true
  plexDeleteOk := fun _ => true
  moveRaises := fun _ => false
  removeRaises := fun _ => false
  fileExists := fun _ => true
  parentEmptyDir := fun _ => false

/-- Oracles under which the Plex delete reports failure and the direct
filesystem delete raises. -/
def failOracles : Oracles where
  putMovieOk := fun _ => true
  putEpisodeOk := fun _ => true
  plexDeleteOk := fun _ => false
  moveRaises := fun _ => false
  removeRaises := fun _ => true
  fileExists := fun _ => true
  parentEmptyDir := fun _ => false

/-- The default configuration (dry run on). -/
def dryCfg : Config := {}

/-- A live-mode configuration (no unmonitor step, direct deletes). -/
def liveCfg : Config := { dry_run := false, auto_unmonitor := false }

/-- A concrete plan whose removal list contains `sampleFile`. -/
def samplePlan : DeduplicationPlan where
  group := sampleGroup
  keep := sampleFile2
  remove := [sampleFile]
  reason := "r"

/-- A concrete plan with nothing to remove (always succeeds). -/
def okPlan : DeduplicationPlan where
  group := sampleGroup
  keep := sampleFile2
  remove := []
  reason := "r"

/-- The priority key list `_find_in_radarr` realises: TMDB id if truthy,
then IMDB id if truthy, then the title+year key (always tried). -/
def radarr_lookup_keys (g : DuplicateGroup) : List String :=
  (if truthyOptStr g.tmdb_id then ["tmdb:" ++ g.tmdb_id.getD ""] else []) ++
  (if truthyOptStr g.imdb_id then ["imdb:" ++ g.imdb_id.getD ""] else []) ++
  [radarr_title_key g]

/-- The priority key list `_find_in_sonarr` realises for the series:
TVDB id if truthy, then IMDB id if truthy, then the show-title key. -/
def sonarr_lookup_keys (g : DuplicateGroup) : List String :=
  (if truthyOptStr g.tvdb_id then ["tvdb:" ++ g.tvdb_id.getD ""] else []) ++
  (if truthyOptStr g.imdb_id then ["imdb:" ++ g.imdb_id.getD ""] else []) ++
  (if truthyStr g.show_title then ["title:" ++ lowerStr g.show_title] else [])

/-- The series lookup in the priority order the specification states
(movie-database id, then IMDB id, then — for series — TVDB id, then
lowercased title): a spec-side definition, written from the spec's words
to be compared with `find_in_sonarr_series` from the source. -/
def claimed_series_lookup (g : DuplicateGroup)
    (index : String → Option ArrEntry) : Option ArrEntry :=
  List.findSome? index
    ((if truthyOptStr g.tmdb_id then ["tmdb:" ++ g.tmdb_id.getD ""] else []) ++
     (if truthyOptStr g.imdb_id then ["imdb:" ++ g.imdb_id.getD ""] else []) ++
     (if truthyOptStr g.tvdb_id then ["tvdb:" ++ g.tvdb_id.getD ""] else []) ++
     (if truthyStr g.show_title then ["title:" ++ lowerStr g.show_title] else []))

/-- A series entry reachable through the TVDB key. -/
def seriesEntryTvdb : ArrEntry := ⟨2, some "by tvdb", some true⟩

/-- A different series entry reachable through the IMDB key. -/
def seriesEntryImdb : ArrEntry := ⟨1, some "by imdb", some true⟩

/-- An episode group carrying both an IMDB id and a TVDB id. -/
def seriesGroupC5 : DuplicateGroup where
  title := "e"
  year := none
  plex_rating_key := "10"
  files := []
  imdb_id := some "tt1"
  tvdb_id := some "5"
  media_type := "episode"
  show_title := "x"

/-- An index containing a different entry under the IMDB key and the
TVDB key. -/
def indexC5 : String → Option ArrEntry := fun k =>
  if k = "tvdb:5" then some seriesEntryTvdb
  else if k = "imdb:tt1" then some seriesEntryImdb
  else none

/-- A file with an unparsable resolution and an unrecognised source. -/
def negFile : MediaFile :=
  { sampleFile with resolution := "", file_path := "x" }

/-- A rank table with a negative weight on the `unknown` key. -/
def negRanks : List (String × Int) := [("unknown", -10)]

/-- `sampleFile` with its resolution label replaced by `sd` (dvd path,
same every other attribute). -/
def sdFile : MediaFile := { sampleFile with resolution := "sd" }

/-!  Helper lemmas (not claim theorems).  -/

theorem maxByFirst_split {α β : Type} [LinearOrder β] (k : α → β) :
    ∀ (rest : List α) (init : α), ∃ l₁ l₂,
      init :: rest = l₁ ++ maxByFirst k init rest :: l₂ ∧
      (∀ b ∈ init :: rest, k b ≤ k (maxByFirst k init rest)) ∧
      (∀ b ∈ l₁, k b < k (maxByFirst k init rest)) := by
  intro rest
  induction rest with
  | nil =>
    intro init
    refine ⟨[], [], rfl, ?_, by simp⟩
    intro b hb
    simp only [maxByFirst, List.foldl_nil]
    simp only [List.mem_singleton] at hb
    simp [hb]
  | cons y ys ih =>
    intro init
    by_cases hxy : k init < k y
    · have hstep : maxByFirst k init (y :: ys) = maxByFirst k y ys := by
        simp [maxByFirst, hxy]
      obtain ⟨l₁, l₂, hsplit, hall, hstrict⟩ := ih y
      rw [hstep]
      refine ⟨init :: l₁, l₂, by rw [hsplit, List.cons_append], ?_, ?_⟩
      · intro b hb
        rcases List.mem_cons.mp hb with hb | hb
        · exact hb ▸ le_of_lt (lt_of_lt_of_le hxy (hall y (List.mem_cons_self y ys)))
        · exact hall b hb
      · intro b hb
        rcases List.mem_cons.mp hb with hb | hb
        · exact hb ▸ lt_of_lt_of_le hxy (hall y (List.mem_cons_self y ys))
        · exact hstrict b hb
    · have hstep : maxByFirst k init (y :: ys) = maxByFirst k init ys := by
        simp [maxByFirst, hxy]
      obtain ⟨l₁, l₂, hsplit, hall, hstrict⟩ := ih init
      rw [hstep]
      have hyle : k y ≤ k init := le_of_not_lt hxy
      have hile : k init ≤ k (maxByFirst k init ys) :=
        hall init (List.mem_cons_self _ _)
      cases l₁ with
      | nil =>
        simp only [List.nil_append] at hsplit
        have hinit : init = maxByFirst k init ys := (List.cons_eq_cons.mp hsplit).1
        have hys : ys = l₂ := (List.cons_eq_cons.mp hsplit).2
        refine ⟨[], y :: ys, ?_, ?_, by simp⟩
        · rw [List.nil_append, ← hinit]
        · intro b hb
          rcases List.mem_cons.mp hb with hb | hb
          · exact hb ▸ hile
          rcases List.mem_cons.mp hb with hb | hb
          · exact hb ▸ le_trans hyle hile
          · exact hall b (List.mem_cons_of_mem _ hb)
      | cons c l₁t =>
        rw [List.cons_append] at hsplit
        have hc : init = c := (List.cons_eq_cons.mp hsplit).1
        have hys : ys = l₁t ++ maxByFirst k init ys :: l₂ :=
          (List.cons_eq_cons.mp hsplit).2
        have hinitlt : k init < k (maxByFirst k init ys) :=
          hc ▸ hstrict c (List.mem_cons_self _ _)
        refine ⟨init :: y :: l₁t, l₂, ?_, ?_, ?_⟩
        · rw [List.cons_append, List.cons_append, ← hys]
        · intro b hb
          rcases List.mem_cons.mp hb with hb | hb
          · exact hb ▸ hile
          rcases List.mem_cons.mp hb with hb | hb
          · exact hb ▸ le_trans hyle hile
          · exact hall b (List.mem_cons_of_mem _ hb)
        · intro b hb
          rcases List.mem_cons.mp hb with hb | hb
          · exact hb ▸ hinitlt
          rcases List.mem_cons.mp hb with hb | hb
          · exact hb ▸ lt_of_le_of_lt hyle hinitlt
          · exact hstrict b (hc ▸ List.mem_cons_of_mem _ hb)

theorem insertionSort_scoredGE_head :
    ∀ l : List (MediaFile × ℚ), l ≠ [] → ∃ m l₁ l₂,
      (List.insertionSort scoredGE l).head? = some m ∧
      l = l₁ ++ m :: l₂ ∧ (∀ b ∈ l, b.2 ≤ m.2) ∧ (∀ b ∈ l₁, b.2 < m.2) := by
  intro l
  induction l with
  | nil => intro h; exact absurd rfl h
  | cons x xs ih =>
    intro _
    cases hxs : xs with
    | nil =>
      refine ⟨x, [], [], ?_, by simp, by simp, by simp⟩
      simp [List.insertionSort, List.orderedInsert]
    | cons y ys =>
      obtain ⟨m, l₁, l₂, hhead, hsplit, hall, hstrict⟩ := hxs ▸ ih (by simp [hxs])
      obtain ⟨t, ht⟩ : ∃ t, List.insertionSort scoredGE (y :: ys) = m :: t := by
        cases hs : List.insertionSort scoredGE (y :: ys) with
        | nil => rw [hs] at hhead; exact absurd hhead (by simp)
        | cons a b =>
          rw [hs] at hhead
          simp only [List.head?_cons, Option.some.injEq] at hhead
          exact ⟨b, by rw [hhead]⟩
      by_cases hxm : m.2 ≤ x.2
      · refine ⟨x, [], y :: ys, ?_, by simp, ?_, by simp⟩
        · rw [show List.insertionSort scoredGE (x :: y :: ys) =
            List.orderedInsert scoredGE x (List.insertionSort scoredGE (y :: ys))
            from rfl, ht]
          simp [List.orderedInsert, scoredGE, hxm]
        · intro b hb
          rcases List.mem_cons.mp hb with hb | hb
          · exact hb ▸ le_refl _
          · exact le_trans (hall b (hsplit ▸ hb)) hxm
      · refine ⟨m, x :: l₁, l₂, ?_, ?_, ?_, ?_⟩
        · rw [show List.insertionSort scoredGE (x :: y :: ys) =
            List.orderedInsert scoredGE x (List.insertionSort scoredGE (y :: ys))
            from rfl, ht]
          simp [List.orderedInsert, scoredGE, hxm]
        · rw [List.cons_append, ← hsplit]
        · intro b hb
          rcases List.mem_cons.mp hb with hb | hb
          · exact hb ▸ le_of_lt (lt_of_not_le hxm)
          · exact hall b (hsplit ▸ hb)
        · intro b hb
          rcases List.mem_cons.mp hb with hb | hb
          · exact hb ▸ lt_of_not_le hxm
          · exact hstrict b hb

theorem pick_best_quality_split (ranks : List (String × Int))
    (files : List MediaFile) (h : files ≠ []) :
    ∃ kp r l₁ l₂, pick_best_quality ranks files = some (kp, r) ∧
      files = l₁ ++ kp :: l₂ ∧
      (∀ b ∈ files, score_file ranks b ≤ score_file ranks kp) ∧
      (∀ b ∈ l₁, score_file ranks b < score_file ranks kp) := by
  obtain ⟨m, s₁, s₂, hhead, hsplit, hall, hstrict⟩ :=
    insertionSort_scoredGE_head (files.map (fun f => (f, score_file ranks f)))
      (by simpa using h)
  have hmem : m ∈ files.map (fun f => (f, score_file ranks f)) := by
    rw [hsplit]; exact List.mem_append_right _ (List.mem_cons_self _ _)
  obtain ⟨f, _, hf⟩ := List.mem_map.mp hmem
  have hm2 : m.2 = score_file ranks m.1 := by rw [← hf]
  refine ⟨m.1, "Highest quality score: " ++ toString m.2,
    s₁.map Prod.fst, s₂.map Prod.fst, ?_, ?_, ?_, ?_⟩
  · simp only [pick_best_quality, hhead]
  · have hmap := congrArg (List.map Prod.fst) hsplit
    simpa [List.map_map, Function.comp_def] using hmap
  · intro b hb
    have : (b, score_file ranks b) ∈ files.map (fun f => (f, score_file ranks f)) :=
      List.mem_map.mpr ⟨b, hb, rfl⟩
    simpa [hm2] using hall _ this
  · intro b hb
    obtain ⟨q, hq, hq1⟩ := List.mem_map.mp hb
    have hqs : q ∈ files.map (fun f => (f, score_file ranks f)) := by
      rw [hsplit]; exact List.mem_append_left _ hq
    obtain ⟨g, _, hg⟩ := List.mem_map.mp hqs
    have hq2 : q.2 = score_file ranks q.1 := by rw [← hg]
    have := hstrict q hq
    rw [hq2, hq1, hm2] at this
    exact this

theorem pick_largest_split (files : List MediaFile) (h : files ≠ []) :
    ∃ kp r l₁ l₂, pick_largest files = some (kp, r) ∧
      files = l₁ ++ kp :: l₂ ∧
      (∀ b ∈ files, b.file_size ≤ kp.file_size) ∧
      (∀ b ∈ l₁, b.file_size < kp.file_size) := by
  cases files with
  | nil => exact absurd rfl h
  | cons x xs =>
    obtain ⟨l₁, l₂, hsplit, hall, hstrict⟩ :=
      maxByFirst_split (fun f : MediaFile => f.file_size) xs x
    exact ⟨maxByFirst (fun f => f.file_size) x xs, _, l₁, l₂, rfl,
      hsplit, hall, hstrict⟩

theorem pick_newest_split (files : List MediaFile) (h : files ≠ []) :
    ∃ kp r l₁ l₂, pick_newest files = some (kp, r) ∧
      files = l₁ ++ kp :: l₂ ∧
      (∀ b ∈ files, b.added_at ≤ kp.added_at) ∧
      (∀ b ∈ l₁, b.added_at < kp.added_at) := by
  cases files with
  | nil => exact absurd rfl h
  | cons x xs =>
    obtain ⟨l₁, l₂, hsplit, hall, hstrict⟩ :=
      maxByFirst_split (fun f : MediaFile => f.added_at) xs x
    exact ⟨maxByFirst (fun f => f.added_at) x xs, _, l₁, l₂, rfl,
      hsplit, hall, hstrict⟩

theorem pick_keeper_split (strategy : String) (ranks : List (String × Int))
    (files : List MediaFile) (h : files ≠ []) :
    ∃ kp r l₁ l₂, pick_keeper strategy ranks files = some (kp, r) ∧
      files = l₁ ++ kp :: l₂ ∧ kp ∉ l₁ := by
  have hbq : ∀ _ : pick_keeper strategy ranks files = pick_best_quality ranks files,
      ∃ kp r l₁ l₂, pick_keeper strategy ranks files = some (kp, r) ∧
        files = l₁ ++ kp :: l₂ ∧ kp ∉ l₁ := by
    intro he
    obtain ⟨kp, r, l₁, l₂, hpick, hsplit, _, hstrict⟩ :=
      pick_best_quality_split ranks files h
    refine ⟨kp, r, l₁, l₂, he ▸ hpick, hsplit, fun hmem => ?_⟩
    exact lt_irrefl _ (hstrict kp hmem)
  by_cases h1 : strategy = "best_quality"
  · exact hbq (by simp [pick_keeper, h1])
  by_cases h2 : strategy = "largest_file"
  · obtain ⟨kp, r, l₁, l₂, hpick, hsplit, _, hstrict⟩ := pick_largest_split files h
    refine ⟨kp, r, l₁, l₂, ?_, hsplit, fun hmem => ?_⟩
    · simpa [pick_keeper, h1, h2] using hpick
    · exact lt_irrefl _ (hstrict kp hmem)
  by_cases h3 : strategy = "newest"
  · obtain ⟨kp, r, l₁, l₂, hpick, hsplit, _, hstrict⟩ := pick_newest_split files h
    refine ⟨kp, r, l₁, l₂, ?_, hsplit, fun hmem => ?_⟩
    · simpa [pick_keeper, h1, h2, h3] using hpick
    · exact lt_irrefl _ (hstrict kp hmem)
  · exact hbq (by simp [pick_keeper, h1, h2, h3])

/-!  Claim theorems.  -/

/-- C1: for every duplicate group with more than one file and any
configured strategy (and any catalog index), the plan built by the scan
loop keeps a member of the group, removes exactly the other files in
their original order, and the keeper's occurrence (the first position
holding its value, which is the object the strategies return) is not
in the removal list, whose length is N − 1. -/
theorem scan_partition_invariant (strategy : String)
    (ranks : List (String × Int)) (index : String → Option ArrEntry)
    (findEp : Int → Int → Int → Option ArrEntry) (g : DuplicateGroup)
    (h : 1 < g.files.length) :
    ∃ planM planE l₁ l₂,
      scan_group_movie strategy ranks index g = some planM ∧
      scan_group_episode strategy ranks index findEp g = some planE ∧
      scan_movies strategy ranks index [g] = [planM] ∧
      scan_episodes strategy ranks index findEp [g] = [planE] ∧
      planE.keep = planM.keep ∧ planE.remove = planM.remove ∧
      planM.keep ∈ g.files ∧
      g.files = l₁ ++ planM.keep :: l₂ ∧ planM.keep ∉ l₁ ∧
      planM.remove = l₁ ++ l₂ ∧
      planM.remove.length = g.files.length - 1 ∧
      planM.remove.count planM.keep = g.files.count planM.keep - 1 := by
  have hne : g.files ≠ [] := by
    intro he
    rw [he] at h
    exact absurd h (by simp)
  obtain ⟨kp, r, l₁, l₂, hpick, hsplit, hnotmem⟩ :=
    pick_keeper_split strategy ranks g.files hne
  have hmem : kp ∈ g.files := by
    rw [hsplit]; exact List.mem_append_right _ (List.mem_cons_self _ _)
  have herase : g.files.erase kp = l₁ ++ l₂ := by
    rw [hsplit, List.erase_append_right _ (by simpa using hnotmem),
      List.erase_cons_head]
  refine ⟨⟨g, kp, g.files.erase kp, r, find_in_radarr g index, none,
      false, none⟩,
    ⟨g, kp, g.files.erase kp, r, (find_in_sonarr g index findEp).1,
      (find_in_sonarr g index findEp).2, false, none⟩,
    l₁, l₂, ?_, ?_, ?_, ?_, rfl, rfl, hmem, hsplit, hnotmem,
    herase, List.length_erase_of_mem hmem, List.count_erase_self kp g.files⟩
  · simp only [scan_group_movie, hpick]
  · simp only [scan_group_episode, hpick]
  · simp only [scan_movies, List.filterMap, scan_group_movie, hpick]
  · simp only [scan_episodes, List.filterMap, scan_group_episode, hpick]

/-- Witness for C1 at a concrete 2-file group and strategy. -/
theorem scan_partition_invariant_witness :
    1 < sampleGroup.files.length ∧
    (∃ planM planE l₁ l₂,
      scan_group_movie "largest_file" default_quality_ranks emptyIndex
        sampleGroup = some planM ∧
      scan_group_episode "largest_file" default_quality_ranks emptyIndex
        emptyFindEp sampleGroup = some planE ∧
      scan_movies "largest_file" default_quality_ranks emptyIndex
        [sampleGroup] = [planM] ∧
      scan_episodes "largest_file" default_quality_ranks emptyIndex
        emptyFindEp [sampleGroup] = [planE] ∧
      planE.keep = planM.keep ∧ planE.remove = planM.remove ∧
      planM.keep ∈ sampleGroup.files ∧
      sampleGroup.files = l₁ ++ planM.keep :: l₂ ∧ planM.keep ∉ l₁ ∧
      planM.remove = l₁ ++ l₂ ∧
      planM.remove.length = sampleGroup.files.length - 1 ∧
      planM.remove.count planM.keep =
        sampleGroup.files.count planM.keep - 1) :=
  ⟨by simp [sampleGroup],
   scan_partition_invariant "largest_file" default_quality_ranks emptyIndex
     emptyFindEp sampleGroup (by simp [sampleGroup])⟩

/-- C4: each strategy selects the file with the maximum key (quality
score, file size, added timestamp respectively); ties resolve to the
first-encountered element (everything before the keeper is strictly
smaller), and selection returns a value for every non-empty list. -/
theorem pick_keeper_strategy_correct (ranks : List (String × Int))
    (files : List MediaFile) (h : files ≠ []) :
    (∃ kp r l₁ l₂, pick_keeper "best_quality" ranks files = some (kp, r) ∧
      files = l₁ ++ kp :: l₂ ∧
      (∀ b ∈ files, score_file ranks b ≤ score_file ranks kp) ∧
      (∀ b ∈ l₁, score_file ranks b < score_file ranks kp)) ∧
    (∃ kp r l₁ l₂, pick_keeper "largest_file" ranks files = some (kp, r) ∧
      files = l₁ ++ kp :: l₂ ∧
      (∀ b ∈ files, b.file_size ≤ kp.file_size) ∧
      (∀ b ∈ l₁, b.file_size < kp.file_size)) ∧
    (∃ kp r l₁ l₂, pick_keeper "newest" ranks files = some (kp, r) ∧
      files = l₁ ++ kp :: l₂ ∧
      (∀ b ∈ files, b.added_at ≤ kp.added_at) ∧
      (∀ b ∈ l₁, b.added_at < kp.added_at)) := by
  refine ⟨?_, ?_, ?_⟩
  · obtain ⟨kp, r, l₁, l₂, hpick, hrest⟩ := pick_best_quality_split ranks files h
    exact ⟨kp, r, l₁, l₂, by simpa [pick_keeper] using hpick, hrest⟩
  · obtain ⟨kp, r, l₁, l₂, hpick, hrest⟩ := pick_largest_split files h
    exact ⟨kp, r, l₁, l₂, by simpa [pick_keeper] using hpick, hrest⟩
  · obtain ⟨kp, r, l₁, l₂, hpick, hrest⟩ := pick_newest_split files h
    exact ⟨kp, r, l₁, l₂, by simpa [pick_keeper] using hpick, hrest⟩

/-- Witness for C4 at a concrete 2-file list. -/
theorem pick_keeper_strategy_correct_witness :
    ([sampleFile, sampleFile2] : List MediaFile) ≠ [] ∧
    ((∃ kp r l₁ l₂, pick_keeper "best_quality" default_quality_ranks
        [sampleFile, sampleFile2] = some (kp, r) ∧
      [sampleFile, sampleFile2] = l₁ ++ kp :: l₂ ∧
      (∀ b ∈ [sampleFile, sampleFile2], score_file default_quality_ranks b ≤
        score_file default_quality_ranks kp) ∧
      (∀ b ∈ l₁, score_file default_quality_ranks b <
        score_file default_quality_ranks kp)) ∧
    (∃ kp r l₁ l₂, pick_keeper "largest_file" default_quality_ranks
        [sampleFile, sampleFile2] = some (kp, r) ∧
      [sampleFile, sampleFile2] = l₁ ++ kp :: l₂ ∧
      (∀ b ∈ [sampleFile, sampleFile2], b.file_size ≤ kp.file_size) ∧
      (∀ b ∈ l₁, b.file_size < kp.file_size)) ∧
    (∃ kp r l₁ l₂, pick_keeper "newest" default_quality_ranks
        [sampleFile, sampleFile2] = some (kp, r) ∧
      [sampleFile, sampleFile2] = l₁ ++ kp :: l₂ ∧
      (∀ b ∈ [sampleFile, sampleFile2], b.added_at ≤ kp.added_at) ∧
      (∀ b ∈ l₁, b.added_at < kp.added_at))) :=
  ⟨by simp,
   pick_keeper_strategy_correct default_quality_ranks
     [sampleFile, sampleFile2] (by simp)⟩

/-- C9: an unknown strategy string is not rejected: `pick_keeper` falls
through to the `best_quality` branch and returns exactly its result
(so it also returns a value on every non-empty list). -/
theorem pick_keeper_unknown_fallback (strategy : String)
    (ranks : List (String × Int)) (files : List MediaFile)
    (h : strategy ∉ (["best_quality", "largest_file", "newest"] : List String)) :
    pick_keeper strategy ranks files = pick_best_quality ranks files ∧
    (files ≠ [] → ∃ kr, pick_keeper strategy ranks files = some kr) := by
  simp only [List.mem_cons, List.mem_singleton, not_or] at h
  obtain ⟨h1, h2, h3⟩ := h
  have he : pick_keeper strategy ranks files = pick_best_quality ranks files := by
    simp [pick_keeper, h1, h2, h3]
  refine ⟨he, fun hne => ?_⟩
  obtain ⟨kp, r, _, _, hpick, _⟩ := pick_best_quality_split ranks files hne
  exact ⟨(kp, r), he ▸ hpick⟩

/-- Witness for C9 at the unknown strategy string "foo". -/
theorem pick_keeper_unknown_fallback_witness :
    ("foo" ∉ (["best_quality", "largest_file", "newest"] : List String)) ∧
    (pick_keeper "foo" default_quality_ranks [sampleFile] =
      pick_best_quality default_quality_ranks [sampleFile] ∧
    ([sampleFile] ≠ ([] : List MediaFile) →
      ∃ kr, pick_keeper "foo" default_quality_ranks [sampleFile] = some kr)) :=
  ⟨by decide,
   pick_keeper_unknown_fallback "foo" default_quality_ranks [sampleFile]
     (by decide)⟩

/-- C2: with `dry_run` set, executing a plan performs no external call at
all (empty effect trace, so in particular no unmonitor call, no delete
call and no filesystem mutation), marks the plan executed, leaves its
error field untouched (unset stays unset) and returns success — for
every plan and every oracle/configuration of the remaining settings. -/
theorem execute_plan_dry_run_pure (cfg : Config) (orc : Oracles)
    (p : DeduplicationPlan) (h : cfg.dry_run = true) :
    execute_plan cfg orc p = ({ p with executed := true }, ([], true)) := by
  simp [execute_plan, h]

/-- Witness for C2 at the default configuration and a concrete plan. -/
theorem execute_plan_dry_run_pure_witness :
    dryCfg.dry_run = true ∧
    execute_plan dryCfg okOracles samplePlan =
      ({ samplePlan with executed := true }, ([], true)) :=
  ⟨rfl, execute_plan_dry_run_pure dryCfg okOracles samplePlan rfl⟩

/-- C10: when the entry is monitored and the catalog `PUT` fails,
`unmonitor_movie` / `unmonitor_episode` return `False` but have already
mutated the entry's `monitored` field to false — the input mapping is
left modified on error. -/
theorem unmonitor_error_mutates_entry (m e : ArrEntry)
    (hm : m.monitored = some true) (he : e.monitored = some true) :
    unmonitor_movie false m =
      (false, { m with monitored := some false },
        [ExtAction.putMovieMonitoredFalse m.id]) ∧
    unmonitor_episode false e =
      (false, { e with monitored := some false },
        [ExtAction.putEpisodeMonitoredFalse e.id]) := by
  constructor
  · simp [unmonitor_movie, hm]
  · simp [unmonitor_episode, he]

/-- Witness for C10 at concrete monitored entries. -/
theorem unmonitor_error_mutates_entry_witness :
    (ArrEntry.mk 7 none (some true)).monitored = some true ∧
    (ArrEntry.mk 8 none (some true)).monitored = some true ∧
    (unmonitor_movie false (ArrEntry.mk 7 none (some true)) =
      (false, ArrEntry.mk 7 none (some false),
        [ExtAction.putMovieMonitoredFalse 7]) ∧
    unmonitor_episode false (ArrEntry.mk 8 none (some true)) =
      (false, ArrEntry.mk 8 none (some false),
        [ExtAction.putEpisodeMonitoredFalse 8])) :=
  ⟨rfl, rfl,
   unmonitor_error_mutates_entry (ArrEntry.mk 7 none (some true))
     (ArrEntry.mk 8 none (some true)) rfl rfl⟩

theorem execute_batch_append (cfg : Config) (orc : Oracles)
    (xs ys : List DeduplicationPlan) :
    execute_batch cfg orc (xs ++ ys) =
      ((execute_batch cfg orc xs).1 ++ (execute_batch cfg orc ys).1,
       (execute_batch cfg orc xs).2.1 ++ (execute_batch cfg orc ys).2.1,
       (execute_batch cfg orc xs).2.2.1 + (execute_batch cfg orc ys).2.2.1,
       (execute_batch cfg orc xs).2.2.2 + (execute_batch cfg orc ys).2.2.2) := by
  induction xs with
  | nil => simp [execute_batch]
  | cons x xs ih =>
    simp [execute_batch, ih, List.append_assoc, Nat.add_assoc]

theorem execute_batch_plans (cfg : Config) (orc : Oracles)
    (plans : List DeduplicationPlan) :
    (execute_batch cfg orc plans).1 =
      plans.map (fun q => (execute_plan cfg orc q).1) := by
  induction plans with
  | nil => simp [execute_batch]
  | cons x xs ih => simp [execute_batch, ih]

theorem execute_batch_count_sum (cfg : Config) (orc : Oracles)
    (plans : List DeduplicationPlan) :
    (execute_batch cfg orc plans).2.2.1 + (execute_batch cfg orc plans).2.2.2 =
      plans.length := by
  induction plans with
  | nil => simp [execute_batch]
  | cons x xs ih =>
    simp only [execute_batch, List.length_cons]
    cases (execute_plan cfg orc x).2.2 <;> simp <;> omega

theorem execute_batch_append_success (cfg : Config) (orc : Oracles)
    (xs ys : List DeduplicationPlan) :
    (execute_batch cfg orc (xs ++ ys)).2.2.1 =
      (execute_batch cfg orc xs).2.2.1 + (execute_batch cfg orc ys).2.2.1 := by
  simpa using congrArg (fun t => t.2.2.1) (execute_batch_append cfg orc xs ys)

theorem execute_batch_append_failed (cfg : Config) (orc : Oracles)
    (xs ys : List DeduplicationPlan) :
    (execute_batch cfg orc (xs ++ ys)).2.2.2 =
      (execute_batch cfg orc xs).2.2.2 + (execute_batch cfg orc ys).2.2.2 := by
  simpa using congrArg (fun t => t.2.2.2) (execute_batch_append cfg orc xs ys)

theorem execute_batch_cons_success (cfg : Config) (orc : Oracles)
    (p : DeduplicationPlan) (ps : List DeduplicationPlan) :
    (execute_batch cfg orc (p :: ps)).2.2.1 =
      (if (execute_plan cfg orc p).2.2 then 1 else 0) +
        (execute_batch cfg orc ps).2.2.1 := rfl

theorem execute_batch_cons_failed (cfg : Config) (orc : Oracles)
    (p : DeduplicationPlan) (ps : List DeduplicationPlan) :
    (execute_batch cfg orc (p :: ps)).2.2.2 =
      (if (execute_plan cfg orc p).2.2 then 0 else 1) +
        (execute_batch cfg orc ps).2.2.2 := rfl

theorem execute_all_components (cfg : Config) (orc : Oracles)
    (plans : List DeduplicationPlan) :
    (execute_all cfg orc plans).plans = (execute_batch cfg orc plans).1 ∧
    (execute_all cfg orc plans).success = (execute_batch cfg orc plans).2.2.1 ∧
    (execute_all cfg orc plans).failed = (execute_batch cfg orc plans).2.2.2 :=
  ⟨rfl, rfl, rfl⟩

/-- C3: in live mode, if the delete step of one plan raises, that plan
alone absorbs the failure: its error field records the message and it is
not marked executed, while every other plan of the batch (before and
after it) is still processed by `execute_plan` exactly as it would have
been; the success and failed counters sum to the batch length and the
failing plan contributes exactly one additional failure compared to the
batch without it. -/
theorem execute_all_partial_failure_isolation (cfg : Config) (orc : Oracles)
    (l₁ l₂ : List DeduplicationPlan) (p : DeduplicationPlan)
    (acts : List ExtAction) (msg : String)
    (hdry : cfg.dry_run = false)
    (hexec : p.executed = false)
    (hfail : delete_loop cfg orc p.remove = (acts, some msg)) :
    (execute_all cfg orc (l₁ ++ p :: l₂)).plans =
      l₁.map (fun q => (execute_plan cfg orc q).1) ++
        { p with error := some msg } ::
        l₂.map (fun q => (execute_plan cfg orc q).1) ∧
    ({ p with error := some msg }).executed = false ∧
    ({ p with error := some msg }).error = some msg ∧
    (execute_all cfg orc (l₁ ++ p :: l₂)).success +
      (execute_all cfg orc (l₁ ++ p :: l₂)).failed = (l₁ ++ p :: l₂).length ∧
    (execute_all cfg orc (l₁ ++ p :: l₂)).failed =
      (execute_all cfg orc (l₁ ++ l₂)).failed + 1 ∧
    (execute_all cfg orc (l₁ ++ p :: l₂)).success =
      (execute_all cfg orc (l₁ ++ l₂)).success := by
  have hp : execute_plan cfg orc p =
      ({ p with error := some msg }, (unmonitor_step cfg orc p ++ acts, false)) := by
    simp [execute_plan, hdry, hfail]
  obtain ⟨hplans, hsucc, hfailc⟩ := execute_all_components cfg orc (l₁ ++ p :: l₂)
  obtain ⟨hplans2, hsucc2, hfailc2⟩ := execute_all_components cfg orc (l₁ ++ l₂)
  refine ⟨?_, hexec, rfl, ?_, ?_, ?_⟩
  · rw [hplans, execute_batch_plans, List.map_append, List.map_cons, hp]
  · rw [hsucc, hfailc]
    have h1 := execute_batch_append cfg orc l₁ (p :: l₂)
    have h2 := execute_batch_count_sum cfg orc (l₁ ++ p :: l₂)
    omega
  · have h1 := execute_batch_append_failed cfg orc l₁ (p :: l₂)
    have h2 := execute_batch_append_failed cfg orc l₁ l₂
    have h3 : (execute_batch cfg orc (p :: l₂)).2.2.2 =
        1 + (execute_batch cfg orc l₂).2.2.2 := by
      rw [execute_batch_cons_failed, hp]
      simp
    rw [hfailc, hfailc2]
    omega
  · have h1 := execute_batch_append_success cfg orc l₁ (p :: l₂)
    have h2 := execute_batch_append_success cfg orc l₁ l₂
    have h3 : (execute_batch cfg orc (p :: l₂)).2.2.1 =
        (execute_batch cfg orc l₂).2.2.1 := by
      rw [execute_batch_cons_success, hp]
      simp
    rw [hsucc, hsucc2]
    omega

/-- Witness for C3: a failing plan between two succeeding plans. -/
theorem execute_all_partial_failure_isolation_witness :
    liveCfg.dry_run = false ∧ samplePlan.executed = false ∧
    delete_loop liveCfg failOracles samplePlan.remove =
      ([ExtAction.plexDelete "1" 1], some "remove failed: /m/dvd/x.mkv") ∧
    ((execute_all liveCfg failOracles ([okPlan] ++ samplePlan :: [okPlan])).plans =
      [okPlan].map (fun q => (execute_plan liveCfg failOracles q).1) ++
        { samplePlan with error := some "remove failed: /m/dvd/x.mkv" } ::
        [okPlan].map (fun q => (execute_plan liveCfg failOracles q).1) ∧
    ({ samplePlan with error := some "remove failed: /m/dvd/x.mkv" }).executed = false ∧
    ({ samplePlan with error := some "remove failed: /m/dvd/x.mkv" }).error =
      some "remove failed: /m/dvd/x.mkv" ∧
    (execute_all liveCfg failOracles ([okPlan] ++ samplePlan :: [okPlan])).success +
      (execute_all liveCfg failOracles ([okPlan] ++ samplePlan :: [okPlan])).failed =
      ([okPlan] ++ samplePlan :: [okPlan]).length ∧
    (execute_all liveCfg failOracles ([okPlan] ++ samplePlan :: [okPlan])).failed =
      (execute_all liveCfg failOracles ([okPlan] ++ [okPlan])).failed + 1 ∧
    (execute_all liveCfg failOracles ([okPlan] ++ samplePlan :: [okPlan])).success =
      (execute_all liveCfg failOracles ([okPlan] ++ [okPlan])).success) :=
  ⟨rfl, rfl, by decide,
   execute_all_partial_failure_isolation liveCfg failOracles [okPlan] [okPlan]
     samplePlan [ExtAction.plexDelete "1" 1] "remove failed: /m/dvd/x.mkv"
     rfl rfl (by decide)⟩

theorem round2_mono {a b : ℚ} (h : a ≤ b) : round2 a ≤ round2 b := by
  rw [round2, round2]
  have hr : round (a * 100) ≤ round (b * 100) := by
    rw [round_eq, round_eq]
    exact Int.floor_mono (by linarith)
  have hc : ((round (a * 100) : ℤ) : ℚ) ≤ ((round (b * 100) : ℤ) : ℚ) :=
    Int.cast_le.mpr hr
  linarith

theorem round2_eq_of_bounds (q : ℚ) (n : ℤ) (h1 : (n : ℚ) ≤ q * 100 + 1 / 2)
    (h2 : q * 100 + 1 / 2 < n + 1) : round2 q = (n : ℚ) / 100 := by
  rw [round2, round_eq]
  rw [Int.floor_eq_iff.mpr ⟨h1, by linarith⟩]

theorem round2_nonneg {q : ℚ} (h : 0 ≤ q) : 0 ≤ round2 q := by
  have h0 : round2 0 ≤ round2 q := round2_mono h
  simpa [round2] using h0

theorem parse_resolution_rank_nonneg (s : String) :
    0 ≤ parse_resolution_rank s := by
  simp only [parse_resolution_rank]
  split_ifs <;> norm_num

theorem codec_bonus_nonneg (s : String) : 0 ≤ codec_bonus s := by
  simp only [codec_bonus]
  split_ifs <;> norm_num

theorem audio_bonus_nonneg (s : String) : 0 ≤ audio_bonus s := by
  simp only [audio_bonus]
  split_ifs <;> norm_num

theorem lookupRank_nonneg (ranks : List (String × Int)) (key : String)
    (h : ∀ pr ∈ ranks, (0 : Int) ≤ pr.2) : 0 ≤ lookupRank ranks key := by
  simp only [lookupRank]
  cases hf : ranks.find? (fun p => p.1 == key) with
  | none => norm_num
  | some p => exact h p (List.mem_of_find?_eq_some hf)

/-- C5 counterexample: a series group carrying both an IMDB id and a TVDB
id, with a different index entry under each key. Under the claimed
priority (IMDB id before TVDB id) the lookup would return the IMDB
entry; the code's series lookup returns the TVDB entry. -/
theorem sonarr_priority_counterexample :
    claimed_series_lookup seriesGroupC5 indexC5 = some seriesEntryImdb ∧
    find_in_sonarr_series seriesGroupC5 indexC5 = some seriesEntryTvdb ∧
    seriesEntryImdb ≠ seriesEntryTvdb := by decide

/-- C5 amended: both finders are first-hit lookups over a strict priority
key list — for movies TMDB id, then IMDB id, then title+year; for series
TVDB id first, then IMDB id, then the lowercased show title. In
particular a movie-database id hit beats any title hit. -/
theorem find_priority_order (g : DuplicateGroup)
    (index : String → Option ArrEntry) :
    find_in_radarr g index = List.findSome? index (radarr_lookup_keys g) ∧
    find_in_sonarr_series g index =
      List.findSome? index (sonarr_lookup_keys g) ∧
    (∀ t e, g.tmdb_id = some t → t ≠ "" → index ("tmdb:" ++ t) = some e →
      find_in_radarr g index = some e) := by
  refine ⟨?_, ?_, ?_⟩
  · by_cases h1 : truthyOptStr g.tmdb_id <;>
      cases ht : index ("tmdb:" ++ g.tmdb_id.getD "") <;>
        by_cases h2 : truthyOptStr g.imdb_id <;>
          cases hi : index ("imdb:" ++ g.imdb_id.getD "") <;>
            cases hr : index (radarr_title_key g) <;>
              simp [find_in_radarr, radarr_lookup_keys, h1, h2, ht, hi, hr,
                List.findSome?]
  · by_cases h1 : truthyOptStr g.tvdb_id <;>
      cases ht : index ("tvdb:" ++ g.tvdb_id.getD "") <;>
        by_cases h2 : truthyOptStr g.imdb_id <;>
          cases hi : index ("imdb:" ++ g.imdb_id.getD "") <;>
            by_cases h3 : truthyStr g.show_title <;>
              cases hr : index ("title:" ++ lowerStr g.show_title) <;>
                simp [find_in_sonarr_series, sonarr_lookup_keys, h1, h2, h3,
                  ht, hi, hr, List.findSome?]
  · intro t e hg ht hidx
    have htr : truthyOptStr (some t) = true := by simp [truthyOptStr, ht]
    simp [find_in_radarr, hg, htr, hidx]

/-- Witness for the inner implication of the C5 amended theorem: a movie
group whose TMDB key hits. -/
theorem find_priority_order_witness :
    (DuplicateGroup.mk "m" (some 2020) "1" [] (some "603") none none
        "movie" "" none none).tmdb_id = some "603" ∧
    ("603" : String) ≠ "" ∧
    indexC5 ("tmdb:" ++ "603") = none ∧
    find_in_radarr (DuplicateGroup.mk "m" (some 2020) "1" [] (some "603")
        none none "movie" "" none none)
      (fun k => if k = "tmdb:603" then some seriesEntryTvdb else none) =
      some seriesEntryTvdb :=
  ⟨rfl, by decide, by decide,
   (find_priority_order (DuplicateGroup.mk "m" (some 2020) "1" []
       (some "603") none none "movie" "" none none)
     (fun k => if k = "tmdb:603" then some seriesEntryTvdb else none)).2.2
     "603" seriesEntryTvdb rfl (by decide) (by decide)⟩

/-- C7 counterexample: the label `4k` is none of the five labels the
claim allows, yet the code maps it to 2160, not 0. -/
theorem resolution_rank_4k_counterexample :
    removeChar 'p' (lowerStr "4k") ∉
      (["2160", "1080", "720", "576", "480"] : List String) ∧
    parse_resolution_rank "4k" = 2160 ∧ (2160 : Int) ≠ 0 := by decide

/-- C7 amended: after lowercasing and dropping every `p` character, the
labels 2160/1080/720/576/480 map to their pixel heights, the aliases
`4k` and `sd` map to 2160 and 480, and every other label maps to 0. -/
theorem parse_resolution_rank_table :
    (parse_resolution_rank "2160" = 2160 ∧ parse_resolution_rank "2160P" = 2160 ∧
     parse_resolution_rank "1080p" = 1080 ∧ parse_resolution_rank "720p" = 720 ∧
     parse_resolution_rank "576p" = 576 ∧ parse_resolution_rank "480p" = 480 ∧
     parse_resolution_rank "4K" = 2160 ∧ parse_resolution_rank "sd" = 480 ∧
     parse_resolution_rank "SD" = 480) ∧
    (∀ s, removeChar 'p' (lowerStr s) ∉
        (["4k", "2160", "1080", "720", "576", "480", "sd"] : List String) →
      parse_resolution_rank s = 0) := by
  refine ⟨by decide, ?_⟩
  intro s h
  simp only [List.mem_cons, List.mem_singleton, not_or] at h
  obtain ⟨h1, h2, h3, h4, h5, h6, h7⟩ := h
  simp [parse_resolution_rank, h1, h2, h3, h4, h5, h6, h7]

/-- Witness for the universally quantified default case of C7 amended, at
the unknown label `8k`. -/
theorem parse_resolution_rank_table_witness :
    removeChar 'p' (lowerStr "8k") ∉
      (["4k", "2160", "1080", "720", "576", "480", "sd"] : List String) ∧
    parse_resolution_rank "8k" = 0 :=
  ⟨by decide, parse_resolution_rank_table.2 "8k" (by decide)⟩

theorem score_file_eq (ranks : List (String × Int)) (f : MediaFile) :
    score_file ranks f =
      round2 ((parse_resolution_rank f.resolution : ℚ) / 2160 * 100 +
        (lookupRank ranks (quality_key f) : ℚ) * (1 / 2) +
        (if 0 < f.bitrate then min ((f.bitrate : ℚ) / 40000) 1 * 30 else 0) +
        codec_bonus f.video_codec + audio_bonus f.audio_codec) := rfl

/-- C6 counterexample: with a rank table carrying a negative weight (the
claim quantifies over every integer-weighted table), the scorer returns
a negative score. -/
theorem score_negative_rank_counterexample :
    score_file negRanks negFile < 0 := by
  rw [score_file_eq]
  rw [show parse_resolution_rank negFile.resolution = 0 from by decide,
      show lookupRank negRanks (quality_key negFile) = -10 from by decide,
      show codec_bonus negFile.video_codec = 0 from by decide,
      show audio_bonus negFile.audio_codec = 0 from by decide]
  have hb : negFile.bitrate = 0 := rfl
  norm_num [hb]
  rw [round2_eq_of_bounds (-5) (-500) (by norm_num) (by norm_num)]
  norm_num

/-- C6 amended: the scorer is a pure function (it is a Lean function of
the file and the rank table alone) whose result is always an integer
multiple of 1/100 (two decimal places), and it is non-negative whenever
every weight in the rank table is non-negative — as in the shipped
default table. -/
theorem score_nonneg_two_decimals (ranks : List (String × Int))
    (f : MediaFile) (h : ∀ pr ∈ ranks, (0 : Int) ≤ pr.2) :
    0 ≤ score_file ranks f ∧
    ∃ n : ℤ, score_file ranks f * 100 = (n : ℚ) := by
  constructor
  · rw [score_file_eq]
    apply round2_nonneg
    have t1 : (0 : ℚ) ≤ (parse_resolution_rank f.resolution : ℚ) / 2160 * 100 := by
      have h1 : (0 : ℚ) ≤ (parse_resolution_rank f.resolution : ℚ) := by
        exact_mod_cast parse_resolution_rank_nonneg f.resolution
      have h2 : (0 : ℚ) ≤ (parse_resolution_rank f.resolution : ℚ) / 2160 :=
        div_nonneg h1 (by norm_num)
      linarith
    have t2 : (0 : ℚ) ≤ (lookupRank ranks (quality_key f) : ℚ) * (1 / 2) := by
      have h1 : (0 : ℚ) ≤ (lookupRank ranks (quality_key f) : ℚ) := by
        exact_mod_cast lookupRank_nonneg ranks (quality_key f) h
      linarith
    have t3 : (0 : ℚ) ≤
        (if 0 < f.bitrate then min ((f.bitrate : ℚ) / 40000) 1 * 30 else 0) := by
      split_ifs with hbit
      · have h1 : (0 : ℚ) ≤ (f.bitrate : ℚ) := by exact_mod_cast hbit.le
        have h2 : (0 : ℚ) ≤ min ((f.bitrate : ℚ) / 40000) 1 :=
          le_min (div_nonneg h1 (by norm_num)) (by norm_num)
        linarith
      · exact le_refl 0
    have t4 := codec_bonus_nonneg f.video_codec
    have t5 := audio_bonus_nonneg f.audio_codec
    linarith
  · rw [score_file_eq, round2]
    exact ⟨round (((parse_resolution_rank f.resolution : ℚ) / 2160 * 100 +
      (lookupRank ranks (quality_key f) : ℚ) * (1 / 2) +
      (if 0 < f.bitrate then min ((f.bitrate : ℚ) / 40000) 1 * 30 else 0) +
      codec_bonus f.video_codec + audio_bonus f.audio_codec) * 100), by
        field_simp⟩

/-- Witness for C6 amended at the default (all non-negative) rank table. -/
theorem score_nonneg_two_decimals_witness :
    (∀ pr ∈ default_quality_ranks, (0 : Int) ≤ pr.2) ∧
    (0 ≤ score_file default_quality_ranks sampleFile ∧
      ∃ n : ℤ, score_file default_quality_ranks sampleFile * 100 = (n : ℚ)) :=
  ⟨by decide, score_nonneg_two_decimals default_quality_ranks sampleFile
    (by decide)⟩

/-- C8 counterexample: replacing `sd` (rank 480) by `576` (rank 576) on a
dvd-sourced file, with the shipped default rank table and every other
attribute fixed, strictly lowers the score: the digit label changes the
rank-table key from `dvd` (weight 20) to the absent `dvd-576p`. -/
theorem score_resolution_mono_counterexample :
    parse_resolution_rank sdFile.resolution <
      parse_resolution_rank sampleFile.resolution ∧
    sampleFile = { sdFile with resolution := "576" } ∧
    score_file default_quality_ranks sampleFile <
      score_file default_quality_ranks sdFile := by
  refine ⟨by decide, by decide, ?_⟩
  have hA : score_file default_quality_ranks sampleFile = round2 (80 / 3) := by
    rw [score_file_eq]
    rw [show parse_resolution_rank sampleFile.resolution = 576 from by decide,
        show lookupRank default_quality_ranks (quality_key sampleFile) = 0
          from by decide,
        show codec_bonus sampleFile.video_codec = 0 from by decide,
        show audio_bonus sampleFile.audio_codec = 0 from by decide]
    norm_num [show sampleFile.bitrate = 0 from rfl]
  have hB : score_file default_quality_ranks sdFile = round2 (290 / 9) := by
    rw [score_file_eq]
    rw [show parse_resolution_rank sdFile.resolution = 480 from by decide,
        show lookupRank default_quality_ranks (quality_key sdFile) = 20
          from by decide,
        show codec_bonus sdFile.video_codec = 0 from by decide,
        show audio_bonus sdFile.audio_codec = 0 from by decide]
    norm_num [show sdFile.bitrate = 0 from rfl]
  rw [hA, hB, round2_eq_of_bounds (80 / 3) 2667 (by norm_num) (by norm_num),
    round2_eq_of_bounds (290 / 9) 3222 (by norm_num) (by norm_num)]
  norm_num

/-- C8 amended: raising a file's resolution rank (every other attribute
and the rank table fixed) never lowers its score, provided the rank-table
weight of the derived quality key does not drop with the new resolution
label — the coupling the counterexample exploits. -/
theorem score_resolution_mono (ranks : List (String × Int)) (f : MediaFile)
    (r2 : String)
    (hres : parse_resolution_rank f.resolution < parse_resolution_rank r2)
    (hkey : lookupRank ranks (quality_key f) ≤
      lookupRank ranks (quality_key { f with resolution := r2 })) :
    score_file ranks f ≤ score_file ranks { f with resolution := r2 } := by
  rw [score_file_eq, score_file_eq]
  apply round2_mono
  dsimp only
  have c1 : (parse_resolution_rank f.resolution : ℚ) ≤
      (parse_resolution_rank r2 : ℚ) := by exact_mod_cast hres.le
  have c2 : (lookupRank ranks (quality_key f) : ℚ) ≤
      (lookupRank ranks (quality_key { f with resolution := r2 }) : ℚ) := by
    exact_mod_cast hkey
  linarith

/-- Witness for C8 amended: raising `576` to `1080p` on the dvd-sourced
sample file, against a table where both derived keys are absent. -/
theorem score_resolution_mono_witness :
    parse_resolution_rank sampleFile.resolution <
      parse_resolution_rank "1080p" ∧
    lookupRank negRanks (quality_key sampleFile) ≤
      lookupRank negRanks (quality_key { sampleFile with resolution := "1080p" }) ∧
    score_file negRanks sampleFile ≤
      score_file negRanks { sampleFile with resolution := "1080p" } :=
  ⟨by decide, by decide,
   score_resolution_mono negRanks sampleFile "1080p" (by decide) (by decide)⟩
